import Mathlib

set_option maxHeartbeats 1000000

/- Shallow embedding of the Facebook claim annotation interface
   (annotation_interface/app.py, config.py, github_storage.py).
   Python dicts with insertion order are modelled as association lists,
   Python string truthiness is modelled explicitly, and external effects
   (files, MongoDB collections, the GitHub contents API) are modelled as
   explicit state passing. -/

/-- Python `a or rest` where `a` is an optional string: the value of `a`
when it is present and non-empty, else `rest`. -/
def pyOrStr (a : Option String) (rest : String) : String :=
  match a with
  | none => rest
  | some s => if s = "" then rest else s

/-- Python `a or rest` where `a` is a plain string. -/
def pyOrStrS (a : String) (rest : String) : String :=
  if a = "" then rest else a

/-- One raw dataset record as read from the JSON dataset file.  The fields
postId and post_id are optional columns, text and image_id are required. -/
structure RawItem where
  postId : Option String
  post_id : Option String
  text : String
  image_id : String
deriving DecidableEq

/-- One dataset row after load_dataset added the synthetic id column. -/
structure Item extends RawItem where
  id : String
deriving DecidableEq

/-- Tag each raw record with id item_i, i the position in the raw
(pre-shuffle) order.  Models the line df, quote, id, end quote,
= list of item_i strings in app.py load_dataset. -/
def addIdsFrom : Nat → List RawItem → List Item
  | _, [] => []
  | i, r :: rs => { toRawItem := r, id := "item_" ++ toString i } :: addIdsFrom (i + 1) rs

def addIds (data : List RawItem) : List Item := addIdsFrom 0 data

/-- Apply the shuffle: output position j holds input position perm j.  The
permutation produced by df.sample with the fixed random_state 42 comes from
the external numpy generator, so it is a parameter of the model. -/
def applyPerm (tagged : List Item) (perm : List Nat) : List Item :=
  perm.filterMap (fun j => tagged.get? j)

/-- Models load_dataset: tag with ids, shuffle, then truncate to the head
when LIMIT_DATASET_SIZE is set and positive. -/
def load_dataset (data : List RawItem) (perm : List Nat) (limit : Option Nat) : List Item :=
  let shuffled := applyPerm (addIds data) perm
  match limit with
  | some n => if 0 < n then shuffled.take n else shuffled
  | none => shuffled

/-- Natural key used by get_next_unannotated_item (app.py line 511):
row.get post_id, or row.get postId, or row.get id. -/
def resolveKeyNext (it : Item) : String :=
  pyOrStr it.post_id (pyOrStr it.postId it.id)

/-- Key resolution in the priority order stated by the spec (postId over
post_id over itemId), kept only for comparison with resolveKeyNext. -/
def specResolveKey (it : Item) : String :=
  pyOrStr it.postId (pyOrStr it.post_id it.id)

/-- Models get_next_unannotated_item: the committed keys from storage are
unioned with the pending session batch keys, then the items are scanned in
stored order for the first one whose resolved key is not covered. -/
def get_next_unannotated_item (items : List Item) (committed pending : List String) :
    Option Item :=
  items.find? (fun it => !((committed ++ pending).contains (resolveKeyNext it)))

def rawItemA : RawItem := ⟨none, none, "text a", "img a"⟩

def rawItemB : RawItem := ⟨none, none, "text b", "img b"⟩

/-- Position predicate for the optional head truncation of load_dataset. -/
def withinLimit : Option Nat → Nat → Prop
  | some n, i => 0 < n → i < n
  | none, _ => True

theorem addIdsFrom_get? (k : Nat) (data : List RawItem) (j : Nat) :
    (addIdsFrom k data).get? j
      = (data.get? j).map (fun r => { toRawItem := r, id := "item_" ++ toString (k + j) }) := by
  induction data generalizing k j with
  | nil => simp [addIdsFrom]
  | cons r rs ih =>
    cases j with
    | zero => simp [addIdsFrom]
    | succ j =>
      have h := ih (k + 1) j
      simp only [addIdsFrom, List.get?_cons_succ, h]
      have : k + 1 + j = k + (j + 1) := by omega
      rw [this]

theorem addIdsFrom_length (k : Nat) (data : List RawItem) :
    (addIdsFrom k data).length = data.length := by
  induction data generalizing k with
  | nil => rfl
  | cons r rs ih => simp [addIdsFrom, ih]

theorem applyPerm_get? (tagged : List Item) (perm : List Nat)
    (h : ∀ j ∈ perm, j < tagged.length) (i : Nat) :
    (applyPerm tagged perm).get? i = (perm.get? i).bind (fun j => tagged.get? j) := by
  induction perm generalizing i with
  | nil => simp [applyPerm]
  | cons p ps ih =>
    have hp : p < tagged.length := h p (by simp)
    have hps : ∀ j ∈ ps, j < tagged.length := fun j hj => h j (by simp [hj])
    obtain ⟨x, hx⟩ : ∃ x, tagged.get? p = some x :=
      ⟨tagged.get ⟨p, hp⟩, List.get?_eq_get hp⟩
    cases i with
    | zero =>
      rw [List.get?_eq_getElem?] at hx
      simp [applyPerm, List.filterMap_cons, hx]
    | succ i =>
      have h2 := ih hps i
      simp only [applyPerm, List.filterMap_cons, hx] at h2 ⊢
      simpa using h2

/-- Claim C2 (counterexample): ids are attached before the shuffle, so for
the two-element dataset below under the swap permutation the item presented
at position 0 carries id item_1, not item_0 as the claim requires. -/
theorem c2_counterexample :
    (((load_dataset [rawItemA, rawItemB] [1, 0] (some 10)).get? 0).map Item.id
       = some "item_1")
    ∧ (((load_dataset [rawItemA, rawItemB] [1, 0] (some 10)).get? 0).map Item.id
       ≠ some "item_0") := by
  constructor
  · decide
  · decide

/-- Claim C2 (amended): the synthetic id is assigned from the pre-shuffle
position, so after the deterministic shuffle and the optional truncation the
item at final position i is the raw record at pre-shuffle position j = perm i
and carries id item_j. -/
theorem c2_amended_ids_before_shuffle
    (data : List RawItem) (perm : List Nat) (limit : Option Nat)
    (hperm : ∀ j ∈ perm, j < data.length)
    (i j : Nat) (hij : perm.get? i = some j) (hlim : withinLimit limit i) :
    (load_dataset data perm limit).get? i
      = (data.get? j).map (fun r => { toRawItem := r, id := "item_" ++ toString j }) := by
  have hlen : (addIds data).length = data.length := addIdsFrom_length 0 data
  have hperm2 : ∀ j ∈ perm, j < (addIds data).length := by
    intro x hx; rw [hlen]; exact hperm x hx
  have hget : (applyPerm (addIds data) perm).get? i
      = (data.get? j).map (fun r => { toRawItem := r, id := "item_" ++ toString j }) := by
    rw [applyPerm_get? (addIds data) perm hperm2 i, hij]
    have := addIdsFrom_get? 0 data j
    simpa [addIds] using this
  unfold load_dataset
  cases limit with
  | none => simpa using hget
  | some n =>
    simp only
    by_cases hn : 0 < n
    · have hi : i < n := hlim hn
      simp only [if_pos hn]
      rw [List.get?_take hi]
      exact hget
    · simp only [if_neg hn]
      exact hget

/-- Claim C2 (witness for the amended theorem at a concrete input). -/
theorem c2_witness :
    (load_dataset [rawItemA, rawItemB] [1, 0] (some 10)).get? 0
      = some { toRawItem := rawItemB, id := "item_1" } := by
  have h := c2_amended_ids_before_shuffle [rawItemA, rawItemB] [1, 0] (some 10)
      (by decide) 0 1 (by decide) (by intro h; exact h)
  simpa using h

def itemAB : Item :=
  { postId := some "A", post_id := some "B", text := "t", image_id := "i", id := "item_0" }

/-- Claim C3 (counterexample): the scan resolves keys with post_id before
postId, so an item whose key under the priority claimed by the spec (postId
first) is already committed is still returned by the scan. -/
theorem c3_counterexample :
    get_next_unannotated_item [itemAB] ["A"] [] = some itemAB
    ∧ specResolveKey itemAB = "A"
    ∧ "A" ∈ (["A"] ++ ([] : List String))
    ∧ resolveKeyNext itemAB = "B" := by
  decide

/-- Claim C3 (amended): with the key priority post_id over postId over
itemId that the code uses, the scan returns the first item whose key is in
neither committed nor pending, never returns a covered item, and returns
none exactly when every item key is covered. -/
theorem c3_amended_next_unannotated (items : List Item) (committed pending : List String) :
    (∀ it, get_next_unannotated_item items committed pending = some it →
       it ∈ items
       ∧ resolveKeyNext it ∉ committed ++ pending
       ∧ ∃ pre post, items = pre ++ it :: post
           ∧ ∀ x ∈ pre, resolveKeyNext x ∈ committed ++ pending)
    ∧ (get_next_unannotated_item items committed pending = none
         ↔ ∀ it ∈ items, resolveKeyNext it ∈ committed ++ pending) := by
  induction items with
  | nil => simp [get_next_unannotated_item]
  | cons a l ih =>
    by_cases ha : resolveKeyNext a ∈ committed ++ pending
    · have hfa : (!((committed ++ pending).contains (resolveKeyNext a))) = false := by
        simp [List.elem_iff, ha]
      constructor
      · intro it hit
        simp only [get_next_unannotated_item, List.find?_cons, hfa] at hit
        obtain ⟨hmem, hkey, pre, post, heq, hpre⟩ := ih.1 it hit
        exact ⟨by simp [hmem], hkey, a :: pre, post, by simp [heq],
          by intro x hx; rcases List.mem_cons.mp hx with h | h
             · exact h ▸ ha
             · exact hpre x h⟩
      · simp only [get_next_unannotated_item, List.find?_cons, hfa]
        rw [show (List.find? (fun it => !((committed ++ pending).contains (resolveKeyNext it))) l
              = none) ↔ (get_next_unannotated_item l committed pending = none) from Iff.rfl,
            ih.2]
        constructor
        · intro h it hit
          rcases List.mem_cons.mp hit with h1 | h1
          · exact h1 ▸ ha
          · exact h it h1
        · intro h it hit; exact h it (by simp [hit])
    · have hfa : (!((committed ++ pending).contains (resolveKeyNext a))) = true := by
        simp [List.elem_iff, ha]
      constructor
      · intro it hit
        simp only [get_next_unannotated_item, List.find?_cons, hfa] at hit
        have hia : it = a := by injection hit with h; exact h.symm
        subst hia
        exact ⟨by simp, ha, [], l, by simp, by simp⟩
      · simp only [get_next_unannotated_item, List.find?_cons, hfa]
        constructor
        · intro h; exact absurd h (by simp)
        · intro h; exact absurd (h a (by simp)) ha

/-- Claim C3 (witness for the amended theorem at a concrete input). -/
theorem c3_witness :
    get_next_unannotated_item [itemAB] ["B"] [] = none :=
  (c3_amended_next_unannotated [itemAB] ["B"] []).2.mpr (by decide)

/-- The two-question label.  The JSON field name of this object inside a
stored record is label; checkworthiness is null unless the first answer is
Claim. -/
structure Label where
  claim_status : String
  checkworthiness : Option String
deriving DecidableEq

/-- Label built by the Next button handler (app.py lines 981 to 984): the
second answer is kept only when the first answer is Claim, else null. -/
def mkNextLabel (claim cw : String) : Label :=
  ⟨claim, if claim = "Claim" then some cw else none⟩

/-- One pending entry of st.session_state.temp_annotations.  The label is
stored by the source under the dict key named after a single judgment. -/
structure TempEntry where
  annotator_id : String
  item_id : String
  original_post_id : String
  text : String
  image_id : String
  label : Label
deriving DecidableEq

/-- Insertion-ordered dict update: replacing keeps the original position and
a fresh key is appended at the end, as for a Python dict. -/
def dictPut {α : Type} (d : List (String × α)) (k : String) (v : α) :
    List (String × α) :=
  if d.any (fun p => p.1 == k) then
    d.map (fun p => if p.1 == k then (k, v) else p)
  else d ++ [(k, v)]

def dictGet {α : Type} (d : List (String × α)) (k : String) : Option α :=
  (d.find? (fun p => p.1 == k)).map (fun p => p.2)

/-- The st.session_state fields driving the modelled flow. -/
structure SessState where
  temp_annotations : List (String × TempEntry)
  current_index : Nat
  submitted_annotations : Nat
  display_claim_status : String
  display_checkworthiness : Option String
deriving DecidableEq

def initSessState : SessState :=
  ⟨[], 0, 0, "No Claim", some "Check-worthy"⟩

/-- The original post id captured by the Next handler (app.py line 987):
postId, or post_id, or id. -/
def origPostIdNext (it : Item) : String :=
  pyOrStr it.postId (pyOrStr it.post_id it.id)

def mkTempEntry (annotator : String) (it : Item) (claim cw : String) : TempEntry :=
  ⟨annotator, it.id, origPostIdNext it, it.text, it.image_id, mkNextLabel claim cw⟩

/-- Next button handler: store the label under the current item id in the
session batch and advance the cursor. -/
def nextStep (annotator : String) (items : List Item) (claim cw : String)
    (s : SessState) : SessState :=
  match items.get? s.current_index with
  | some it =>
      { s with
        temp_annotations :=
          dictPut s.temp_annotations it.id (mkTempEntry annotator it claim cw),
        current_index := s.current_index + 1 }
  | none => s

/-- Previous button handler.  The button is disabled at index 0, which the
truncated Nat subtraction reproduces as a floor at 0. -/
def prevStep (s : SessState) : SessState :=
  { s with current_index := s.current_index - 1 }

/-- Display pre-population on a re-render (app.py lines 899 to 907): copy
the pending label of the current item when one exists, else reset both
display fields to the defaults. -/
def renderItemDisplay (s : SessState) (itemId : String) : SessState :=
  match dictGet s.temp_annotations itemId with
  | some e =>
      let s1 := { s with display_claim_status := e.label.claim_status }
      if e.label.claim_status = "Claim" then
        { s1 with display_checkworthiness := e.label.checkworthiness }
      else s1
  | none =>
      { s with display_claim_status := "No Claim",
               display_checkworthiness := some "Check-worthy" }

/-- One re-render: look up the current item from the cursor and update the
display fields; past the end the congratulations page shows instead. -/
def rerenderStep (items : List Item) (s : SessState) : SessState :=
  match items.get? s.current_index with
  | some it => renderItemDisplay s it.id
  | none => s

/-- One line of the local annotator jsonl file, decoded.  Old-format lines
carry item_id instead of post_id. -/
structure LocalRecord where
  annotator_id : String
  post_id : Option String
  item_id : Option String
  text : String
  image_id : String
  label : Label
deriving DecidableEq

/-- One MongoDB document; the association key of the collection is the _id
string. -/
structure MongoDoc where
  annotator_id : String
  post_id : String
  text : String
  image_id : String
  label : Label
deriving DecidableEq

inductive StorageType
  | mongodb
  | localfs
deriving DecidableEq

/-- Outcome of the MongoDB calls inside one save attempt; ok means no
exception was raised.  connectionFailure is raised while connecting, before
any write.  bulkError is a PyMongoError (or other exception) raised inside
the ordered collection.bulk_write call after the given number of preceding
upserts has already been applied; pymongo does not roll those back. -/
inductive MongoOutcome
  | ok
  | connectionFailure
  | bulkError (applied : Nat)
deriving DecidableEq

/-- Python, app.py line 708: stored original_post_id, or item_id. -/
def origPostIdStored (e : TempEntry) : String :=
  pyOrStrS e.original_post_id e.item_id

/-- Local jsonl line written for one batch entry (app.py lines 711 to 717). -/
def tempToLocalRecord (e : TempEntry) : LocalRecord :=
  ⟨e.annotator_id, some (origPostIdStored e), none, e.text, e.image_id, e.label⟩

/-- MongoDB ReplaceOne upsert built for one batch entry (app.py lines 655
to 678); the _id is annotator_id, an underscore, and the dict key. -/
def tempToMongoOp (itemKey : String) (e : TempEntry) : String × MongoDoc :=
  (e.annotator_id ++ "_" ++ itemKey,
   ⟨e.annotator_id, origPostIdStored e, e.text, e.image_id, e.label⟩)

def tempToMongoOps (temp : List (String × TempEntry)) : List (String × MongoDoc) :=
  temp.map (fun p => tempToMongoOp p.1 p.2)

def tempToLocalRecords (temp : List (String × TempEntry)) : List LocalRecord :=
  temp.map (fun p => tempToLocalRecord p.2)

/-- Ordered bulk upsert: each ReplaceOne replaces the document carrying the
same _id or inserts a new one. -/
def bulkWrite (coll : List (String × MongoDoc)) (ops : List (String × MongoDoc)) :
    List (String × MongoDoc) :=
  ops.foldl (fun c op => dictPut c op.1 op.2) coll

/-- Result of one save call: the reported boolean, the two stores after the
call, and how many write calls each backend received. -/
structure SaveResult where
  ok : Bool
  localFile : List LocalRecord
  mongo : List (String × MongoDoc)
  mongoWrites : Nat
  localWrites : Nat
deriving DecidableEq

/-- Models save_all_temporary_annotations (app.py lines 639 to 728).  An
empty batch returns False with no backend call.  A MongoDB exception is
reported as False with no retry against the local file; a connection
failure happens before any write, while an exception inside the ordered
bulk call leaves the upserts preceding the failing operation applied, with
no rollback. -/
def save_all_temporary_annotations (storage : StorageType) (res : MongoOutcome)
    (temp : List (String × TempEntry)) (localFile : List LocalRecord)
    (mongo : List (String × MongoDoc)) : SaveResult :=
  if temp.isEmpty then ⟨false, localFile, mongo, 0, 0⟩
  else
    match storage with
    | .mongodb =>
        match res with
        | .ok =>
            let ops := tempToMongoOps temp
            if ops.isEmpty then ⟨true, localFile, mongo, 0, 0⟩
            else ⟨true, localFile, bulkWrite mongo ops, 1, 0⟩
        | .connectionFailure => ⟨false, localFile, mongo, 0, 0⟩
        | .bulkError applied =>
            ⟨false, localFile, bulkWrite mongo ((tempToMongoOps temp).take applied), 1, 0⟩
    | .localfs => ⟨true, localFile ++ tempToLocalRecords temp, mongo, 0, 1⟩

/-- Submit All button handler (app.py lines 870 to 880): on success add the
batch size to the submitted counter and clear the batch; on failure leave
the whole session state untouched. -/
def submitAllHandler (storage : StorageType) (res : MongoOutcome)
    (s : SessState) (localFile : List LocalRecord)
    (mongo : List (String × MongoDoc)) : SessState × SaveResult :=
  let r := save_all_temporary_annotations storage res s.temp_annotations localFile mongo
  if r.ok then
    ({ s with
        submitted_annotations := s.submitted_annotations + s.temp_annotations.length,
        temp_annotations := [] }, r)
  else (s, r)

/-- Local branch of get_annotation_progress (app.py lines 458 to 468): read
every line of the annotator file. -/
def get_annotation_progress_local (file : List LocalRecord) : List LocalRecord :=
  file

def sampleLabel : Label := ⟨"Claim", some "Check-worthy"⟩

def sampleEntry : TempEntry :=
  ⟨"annotator_01", "item_0", "p1", "sample text", "img.jpg", sampleLabel⟩

/-- Claim C1 (counterexample): with the database primary and a connectivity
exception, the batch commit reports failure and makes no retry against the
local-file variant: the local file stays empty and the local listAnnotations
read returns nothing, so the commit does not succeed via a fallback. -/
theorem c1_counterexample :
    (save_all_temporary_annotations .mongodb .connectionFailure
        [("item_0", sampleEntry)] [] []).ok = false
    ∧ (save_all_temporary_annotations .mongodb .connectionFailure
        [("item_0", sampleEntry)] [] []).localFile = []
    ∧ get_annotation_progress_local
        (save_all_temporary_annotations .mongodb .connectionFailure
          [("item_0", sampleEntry)] [] []).localFile = [] := by
  refine ⟨rfl, rfl, rfl⟩

/-- Claim C1 (amended): when the primary backend is the database variant and
the write fails with any exception, no retry against the local-file variant
happens: the call reports failure to the caller and the local file receives
no write and is unchanged.  When the exception is a connectivity failure,
raised before any write, the collection is also unchanged; an exception
inside the ordered bulk call may instead leave the preceding upserts
applied. -/
theorem c1_amended_no_fallback (res : MongoOutcome) (hres : res ≠ MongoOutcome.ok)
    (temp : List (String × TempEntry)) (localFile : List LocalRecord)
    (mongo : List (String × MongoDoc)) :
    (save_all_temporary_annotations .mongodb res temp localFile mongo).ok = false
    ∧ (save_all_temporary_annotations .mongodb res temp localFile mongo).localFile
        = localFile
    ∧ (save_all_temporary_annotations .mongodb res temp localFile mongo).localWrites = 0
    ∧ (res = MongoOutcome.connectionFailure →
        (save_all_temporary_annotations .mongodb res temp localFile mongo).mongo
          = mongo) := by
  cases res with
  | ok => exact absurd rfl hres
  | connectionFailure =>
      unfold save_all_temporary_annotations
      by_cases h : temp.isEmpty <;> simp [h]
  | bulkError applied =>
      unfold save_all_temporary_annotations
      by_cases h : temp.isEmpty <;> simp [h]

/-- Claim C1 (witness for the amended theorem at a concrete input). -/
theorem c1_witness :
    (save_all_temporary_annotations .mongodb (.bulkError 0)
        [("item_0", sampleEntry)] [] []).ok = false :=
  (c1_amended_no_fallback (.bulkError 0) (by decide) [("item_0", sampleEntry)] [] []).1

/-- The label invariant: checkworthiness is non-null exactly when the claim
status is Claim. -/
def LabelInv (lab : Label) : Prop :=
  lab.checkworthiness ≠ none ↔ lab.claim_status = "Claim"

instance (lab : Label) : Decidable (LabelInv lab) := by
  unfold LabelInv; infer_instance

theorem dictPut_mem {α : Type} (d : List (String × α)) (k : String) (v : α)
    (p : String × α) (hp : p ∈ dictPut d k v) : p = (k, v) ∨ p ∈ d := by
  unfold dictPut at hp
  by_cases h : d.any (fun q => q.1 == k)
  · rw [if_pos h] at hp
    obtain ⟨q, hq, hqe⟩ := List.mem_map.mp hp
    by_cases h2 : q.1 == k
    · rw [if_pos h2] at hqe
      left; exact hqe.symm
    · rw [if_neg h2] at hqe
      right; exact hqe ▸ hq
  · rw [if_neg h] at hp
    rcases List.mem_append.mp hp with h1 | h1
    · right; exact h1
    · left; simpa using h1

/-- Claim C4: the invariant that checkworthiness is non-null iff the claim
status is Claim is established by the Next action for every produced label,
preserved by the Next action over the whole session batch, and preserved by
the commit paths that turn batch entries into local jsonl records and into
MongoDB documents, since both copy the label verbatim. -/
theorem c4_label_invariant :
    (∀ claim cw, LabelInv (mkNextLabel claim cw))
    ∧ (∀ annotator items claim cw s,
        (∀ p ∈ s.temp_annotations, LabelInv p.2.label) →
        ∀ p ∈ (nextStep annotator items claim cw s).temp_annotations, LabelInv p.2.label)
    ∧ (∀ temp : List (String × TempEntry),
        (∀ p ∈ temp, LabelInv p.2.label) →
        (∀ r ∈ tempToLocalRecords temp, LabelInv r.label)
        ∧ (∀ q ∈ tempToMongoOps temp, LabelInv q.2.label)) := by
  have hmk : ∀ claim cw, LabelInv (mkNextLabel claim cw) := by
    intro claim cw
    unfold LabelInv mkNextLabel
    by_cases h : claim = "Claim" <;> simp [h]
  refine ⟨hmk, ?_, ?_⟩
  · intro annotator items claim cw s hs p hp
    unfold nextStep at hp
    cases hit : items.get? s.current_index with
    | none => rw [hit] at hp; exact hs p hp
    | some it =>
        rw [hit] at hp
        simp only at hp
        rcases dictPut_mem _ _ _ p hp with h | h
        · rw [h]; exact hmk claim cw
        · exact hs p h
  · intro temp ht
    constructor
    · intro r hr
      obtain ⟨p, hp, hpe⟩ := List.mem_map.mp hr
      rw [← hpe]
      exact ht p hp
    · intro q hq
      obtain ⟨p, hp, hpe⟩ := List.mem_map.mp hq
      rw [← hpe]
      exact ht p hp

/-- Claim C4 (witness at a concrete input). -/
theorem c4_witness :
    ∀ r ∈ tempToLocalRecords [("item_0", sampleEntry)], LabelInv r.label :=
  ((c4_label_invariant.2.2 [("item_0", sampleEntry)]) (by decide)).1

/-- Claim C5: for a submit of a non-empty session batch, success clears the
batch and adds its size to the cumulative submitted counter, while failure
leaves the whole session state untouched so the user may retry. -/
theorem c5_submit_all_batch (storage : StorageType) (res : MongoOutcome)
    (s : SessState) (localFile : List LocalRecord) (mongo : List (String × MongoDoc))
    (hne : s.temp_annotations ≠ []) :
    ((submitAllHandler storage res s localFile mongo).2.ok = true →
       (submitAllHandler storage res s localFile mongo).1.temp_annotations = []
       ∧ (submitAllHandler storage res s localFile mongo).1.submitted_annotations
           = s.submitted_annotations + s.temp_annotations.length)
    ∧ ((submitAllHandler storage res s localFile mongo).2.ok = false →
       (submitAllHandler storage res s localFile mongo).1 = s) := by
  unfold submitAllHandler
  by_cases h : (save_all_temporary_annotations storage res s.temp_annotations
      localFile mongo).ok
  · simp [h]
  · simp [h]

def sampleState : SessState :=
  ⟨[("item_0", sampleEntry)], 1, 0, "No Claim", some "Check-worthy"⟩

/-- Claim C5 (witness for the success branch at a concrete input). -/
theorem c5_witness :
    (submitAllHandler .localfs .ok sampleState [] []).1.temp_annotations = []
    ∧ (submitAllHandler .localfs .ok sampleState [] []).1.submitted_annotations = 0 + 1 := by
  have h := (c5_submit_all_batch .localfs .ok sampleState [] [] (by decide)).1 (by decide)
  exact ⟨h.1, h.2⟩

def itemX : Item :=
  { postId := some "p1", post_id := none, text := "tx", image_id := "ix", id := "item_0" }

def itemY : Item :=
  { postId := some "p2", post_id := none, text := "ty", image_id := "iy", id := "item_1" }

/-- Claim C6: on every re-render the displayed answers come from the session
batch entry of the current item when one exists, else both default to No
Claim and Check-worthy; and in the Next-then-Previous scenario the answers
Claim and Check-worthy given on the first item are shown again, not the
defaults. -/
theorem c6_display_prepopulation :
    (∀ s itemId, dictGet s.temp_annotations itemId = none →
        (renderItemDisplay s itemId).display_claim_status = "No Claim"
        ∧ (renderItemDisplay s itemId).display_checkworthiness = some "Check-worthy")
    ∧ (∀ s itemId e, dictGet s.temp_annotations itemId = some e →
        (renderItemDisplay s itemId).display_claim_status = e.label.claim_status
        ∧ (e.label.claim_status = "Claim" →
            (renderItemDisplay s itemId).display_checkworthiness = e.label.checkworthiness))
    ∧ (∀ annotator,
        (rerenderStep [itemX, itemY]
          (prevStep (rerenderStep [itemX, itemY]
            (nextStep annotator [itemX, itemY] "Claim" "Check-worthy"
              (rerenderStep [itemX, itemY] initSessState))))).display_claim_status = "Claim"
        ∧ (rerenderStep [itemX, itemY]
          (prevStep (rerenderStep [itemX, itemY]
            (nextStep annotator [itemX, itemY] "Claim" "Check-worthy"
              (rerenderStep [itemX, itemY] initSessState))))).display_checkworthiness
            = some "Check-worthy") := by
  refine ⟨?_, ?_, ?_⟩
  · intro s itemId h
    unfold renderItemDisplay
    rw [h]
    exact ⟨rfl, rfl⟩
  · intro s itemId e h
    unfold renderItemDisplay
    rw [h]
    by_cases hc : e.label.claim_status = "Claim" <;> simp [hc]
  · intro annotator
    exact ⟨rfl, rfl⟩

/-- Claim C6 (witness at a concrete input). -/
theorem c6_witness :
    (renderItemDisplay sampleState "item_0").display_claim_status = "Claim" := by
  have h := c6_display_prepopulation.2.1 sampleState "item_0" sampleEntry (by decide)
  rw [h.1]
  rfl

/-- Claim C9: a submit with an empty batch returns failure, makes no backend
write call, leaves both stores unchanged, and leaves the session state (in
particular the batch size, 0) unchanged. -/
theorem c9_empty_batch_noop (storage : StorageType) (res : MongoOutcome)
    (localFile : List LocalRecord) (mongo : List (String × MongoDoc))
    (idx sub : Nat) (dc : String) (dw : Option String) :
    save_all_temporary_annotations storage res [] localFile mongo
      = ⟨false, localFile, mongo, 0, 0⟩
    ∧ (submitAllHandler storage res ⟨[], idx, sub, dc, dw⟩ localFile mongo).1
        = ⟨[], idx, sub, dc, dw⟩ := by
  exact ⟨rfl, rfl⟩

/-- Key of a stored record used for matching by the local update branch
(app.py line 610): post_id, or item_id. -/
def storedKey (r : LocalRecord) : Option String :=
  match r.post_id with
  | some s => if s = "" then r.item_id else some s
  | none => r.item_id

/-- Key of the current item used for matching (app.py line 611): post_id,
or postId, or id. -/
def currentKeyUpd (it : Item) : String :=
  pyOrStr it.post_id (pyOrStr it.postId it.id)

/-- Replacement record written on a key match (app.py lines 614 to 623). -/
def updReplacement (annotatorId itemId : String) (newLabel : Label) (it : Item) :
    LocalRecord :=
  ⟨annotatorId,
   some (pyOrStr it.postId (pyOrStr it.post_id (pyOrStrS it.id itemId))),
   none, it.text, it.image_id, newLabel⟩

/-- Replace the first record whose stored key equals the given key; the
boolean reports whether anything matched. -/
def replaceFirst (key : String) (repl : LocalRecord) :
    List LocalRecord → List LocalRecord × Bool
  | [] => ([], false)
  | a :: rest =>
      if storedKey a = some key then (repl :: rest, true)
      else
        let r := replaceFirst key repl rest
        (a :: r.1, r.2)

/-- Local branch of update_annotation (app.py lines 598 to 637): read the
whole file, replace the first matching record, rewrite the whole file, and
report whether a record was updated.  Nothing is inserted when no record
matches. -/
def update_annotation_local (annotatorId itemId : String) (newLabel : Label)
    (it : Item) (file : List LocalRecord) : List LocalRecord × Bool :=
  replaceFirst (currentKeyUpd it) (updReplacement annotatorId itemId newLabel it) file

theorem replaceFirst_no_match (key : String) (repl : LocalRecord) :
    ∀ file : List LocalRecord, (∀ r ∈ file, storedKey r ≠ some key) →
      replaceFirst key repl file = (file, false) := by
  intro file
  induction file with
  | nil => intro _; rfl
  | cons a rest ih =>
    intro hf
    have ha := hf a (by simp)
    have h2 := ih (fun r hr => hf r (by simp [hr]))
    simp [replaceFirst, ha, h2]

theorem replaceFirst_match (key : String) (repl : LocalRecord) :
    ∀ pre (m : LocalRecord) post, (∀ r ∈ pre, storedKey r ≠ some key) →
      storedKey m = some key →
      replaceFirst key repl (pre ++ m :: post) = (pre ++ repl :: post, true) := by
  intro pre
  induction pre with
  | nil =>
    intro m post _ hm
    simp [replaceFirst, hm]
  | cons a rest ih =>
    intro m post hpre hm
    have ha := hpre a (by simp)
    have h2 := ih m post (fun r hr => hpre r (by simp [hr])) hm
    simp [replaceFirst, ha, h2]

def labelNC : Label := ⟨"No Claim", none⟩

/-- Claim C7 (counterexample): an update against an empty local file inserts
nothing: the rewritten file is still empty and the call reports false, so
the upsert contract of insert-on-no-match does not hold for the local
variant. -/
theorem c7_counterexample :
    update_annotation_local "annotator_01" "item_0" labelNC itemX [] = ([], false) := by
  rfl

/-- Claim C7 (amended): the local update reads the whole file and rewrites
it whole; the first record whose key matches the key of the current item is
replaced and true is returned; when no record matches, the file content is
rewritten unchanged, false is returned, and no record is inserted. -/
theorem c7_amended_replace_no_insert (annotatorId itemId : String) (newLabel : Label)
    (it : Item) :
    (∀ file : List LocalRecord,
       (∀ r ∈ file, storedKey r ≠ some (currentKeyUpd it)) →
       update_annotation_local annotatorId itemId newLabel it file = (file, false))
    ∧ (∀ pre (m : LocalRecord) post,
       (∀ r ∈ pre, storedKey r ≠ some (currentKeyUpd it)) →
       storedKey m = some (currentKeyUpd it) →
       update_annotation_local annotatorId itemId newLabel it (pre ++ m :: post)
         = (pre ++ updReplacement annotatorId itemId newLabel it :: post, true)) := by
  constructor
  · intro file hf
    exact replaceFirst_no_match _ _ file hf
  · intro pre m post hpre hm
    exact replaceFirst_match _ _ pre m post hpre hm

def recP1 : LocalRecord := ⟨"annotator_01", some "p1", none, "tx", "ix", labelNC⟩

/-- Claim C7 (witness for the amended theorem at a concrete input). -/
theorem c7_witness :
    update_annotation_local "annotator_01" "item_0" sampleLabel itemX [recP1]
      = ([updReplacement "annotator_01" "item_0" sampleLabel itemX], true) := by
  have h := (c7_amended_replace_no_insert "annotator_01" "item_0" sampleLabel itemX).2
      [] recP1 [] (by simp) (by decide)
  simpa using h

/-- Remote file state of the GitHub contents API: decoded content and the
revision marker (the sha). -/
structure GhFile where
  content : List Char
  sha : Nat
deriving DecidableEq

/-- GitHub contents PUT: creating a file needs no sha, updating needs the
current sha; any mismatch is rejected and leaves the remote unchanged. -/
def ghPut (atPut : Option GhFile) (newContent : List Char) (shaParam : Option Nat) :
    Bool × Option GhFile :=
  if shaParam = atPut.map GhFile.sha then
    (true, some ⟨newContent, (match atPut with | some f => f.sha + 1 | none => 0)⟩)
  else (false, atPut)

/-- Result of one remote write: the reported boolean, the remote state
afterwards, and the number of PUT attempts made. -/
structure PutResult where
  ok : Bool
  state : Option GhFile
  putAttempts : Nat
deriving DecidableEq

/-- Models GitHubStorage._create_or_update_file: one GET for the sha, then
exactly one PUT carrying that sha as precondition.  atGet is the remote
state the GET observes, atPut the state the PUT hits; they differ exactly
when another writer raced in between. -/
def _create_or_update_file (atGet atPut : Option GhFile) (content : List Char) :
    PutResult :=
  let shaParam := atGet.map GhFile.sha
  let r := ghPut atPut content shaParam
  ⟨r.1, r.2, 1⟩

/-- Claim C8 (counterexample): a racing writer bumped the sha between the
fetch and the put, the put is rejected, and the call gives up after this
single attempt instead of retrying once with a freshly fetched sha. -/
theorem c8_counterexample :
    _create_or_update_file (some ⟨['a'], 0⟩) (some ⟨['b'], 1⟩) ['c']
      = ⟨false, some ⟨['b'], 1⟩, 1⟩
    ∧ (_create_or_update_file (some ⟨['a'], 0⟩) (some ⟨['b'], 1⟩) ['c']).putAttempts ≠ 2 := by
  exact ⟨by decide, by decide⟩

/-- Claim C8 (amended): the revision marker is fetched before the write and
included as the precondition, so the write succeeds exactly when the fetched
marker still matches the remote; but on a mismatch the write fails after the
single attempt with the remote unchanged, with no retry. -/
theorem c8_amended_single_attempt (atGet atPut : Option GhFile) (content : List Char) :
    (_create_or_update_file atGet atPut content).putAttempts = 1
    ∧ ((_create_or_update_file atGet atPut content).ok = true
         ↔ atGet.map GhFile.sha = atPut.map GhFile.sha)
    ∧ ((_create_or_update_file atGet atPut content).ok = false →
         (_create_or_update_file atGet atPut content).state = atPut) := by
  unfold _create_or_update_file ghPut
  by_cases h : atGet.map GhFile.sha = atPut.map GhFile.sha <;> simp [h]

/-- Claim C8 (witness for the amended theorem at a concrete input). -/
theorem c8_witness :
    (_create_or_update_file (some ⟨['a'], 3⟩) (some ⟨['a'], 3⟩) ['d']).ok = true :=
  (c8_amended_single_attempt (some ⟨['a'], 3⟩) (some ⟨['a'], 3⟩) ['d']).2.1.mpr (by decide)

/-- Python whitespace test used by str.strip with no arguments. -/
def pyIsSpace (c : Char) : Bool :=
  c == ' ' || c == '\t' || c == '\n' || c == '\r' || c == Char.ofNat 11 || c == Char.ofNat 12

/-- Python str.strip with no arguments. -/
def pyStrip (l : List Char) : List Char :=
  ((l.dropWhile pyIsSpace).reverse.dropWhile pyIsSpace).reverse

/-- Python str.endswith for the newline character. -/
def pyEndsWithNl (l : List Char) : Bool :=
  match l.getLast? with
  | some c => c == '\n'
  | none => false

/-- Python newline join of a list of lines. -/
def joinNl : List (List Char) → List Char
  | [] => []
  | [l] => l
  | l :: ls => l ++ '\n' :: joinNl ls

/-- Python str.split on the newline character. -/
def pySplitNl : List Char → List (List Char)
  | [] => [[]]
  | c :: rest =>
      match pySplitNl rest with
      | [] => [[]]
      | l :: ls => if c = '\n' then [] :: l :: ls else (c :: l) :: ls

/-- Decoded content of the remote file, empty when it does not exist. -/
def contentOf (s : Option GhFile) : List Char :=
  match s with
  | some f => f.content
  | none => []

/-- Parse each line with the external json loader; a failing line raises,
so it aborts the whole read, as in the source exception handler. -/
def loadLines {α : Type} (loads : List Char → Option α) :
    List (List Char) → Option (List α)
  | [] => some []
  | l :: ls =>
      match loads l with
      | some a => (loadLines loads ls).map (fun as => a :: as)
      | none => none

/-- Models GitHubStorage.get_annotations: decode the content, strip it,
split on newlines, skip blank lines, parse each remaining line; a missing
file or a parse failure gives the empty list. -/
def get_annotations {α : Type} (loads : List Char → Option α) (s : Option GhFile) :
    List α :=
  match s with
  | none => []
  | some f =>
      (loadLines loads
        ((pySplitNl (pyStrip f.content)).filter (fun l => !(pyStrip l).isEmpty))).getD []

/-- Updated content built by append_to_jsonl_file before the upload
(github_storage.py lines 98 to 116). -/
def appendContent {α : Type} (dumps : α → List Char) (existing : List Char)
    (newAnnotations : List α) : List Char :=
  (if !existing.isEmpty && !pyEndsWithNl existing then existing ++ ['\n'] else existing)
    ++ joinNl (newAnnotations.map dumps) ++ ['\n']

/-- Models GitHubStorage.append_to_jsonl_file: read the whole file, append
the encoded lines in memory, and upload the whole file through
_create_or_update_file with the sha precondition.  atGet is the remote
state the GETs observe, atPut the state the PUT hits. -/
def append_to_jsonl_file {α : Type} (dumps : α → List Char) (atGet atPut : Option GhFile)
    (newAnnotations : List α) : PutResult :=
  _create_or_update_file atGet atPut (appendContent dumps (contentOf atGet) newAnnotations)

/-- Canonical jsonl content: one encoded record per line, each line
newline-terminated.  This is the shape every successful append and every
single-record save produces, so it describes the file of a single writer. -/
def jsonlContent {α : Type} (dumps : α → List Char) : List α → List Char
  | [] => []
  | r :: rs => dumps r ++ '\n' :: jsonlContent dumps rs

/-- The facts the external json encoder and decoder provide for record
objects: decoding inverts encoding, and an encoded line is a non-empty
newline-free line with no leading or trailing whitespace. -/
def GoodCodec {α : Type} (dumps : α → List Char) (loads : List Char → Option α) : Prop :=
  ∀ r, loads (dumps r) = some r
    ∧ dumps r ≠ []
    ∧ '\n' ∉ dumps r
    ∧ (dumps r).dropWhile pyIsSpace = dumps r
    ∧ (dumps r).reverse.dropWhile pyIsSpace = (dumps r).reverse

/-- A line with no leading or trailing whitespace. -/
def NoPad (l : List Char) : Prop :=
  l ≠ [] ∧ l.dropWhile pyIsSpace = l ∧ l.reverse.dropWhile pyIsSpace = l.reverse

theorem head_not_of_dropWhile_eq (p : Char → Bool) (c : Char) (t : List Char)
    (h : (c :: t).dropWhile p = c :: t) : p c = false := by
  by_contra hc
  have hc2 : p c = true := by
    cases hpc : p c with
    | false => exact absurd hpc hc
    | true => rfl
  rw [List.dropWhile_cons_of_pos hc2] at h
  have hle : (t.dropWhile p).length ≤ t.length :=
    (List.dropWhile_suffix p).sublist.length_le
  rw [h] at hle
  simp at hle

theorem dropWhile_append_all (p : Char → Bool) :
    ∀ (a b : List Char), (∀ x ∈ a, p x = true) →
      (a ++ b).dropWhile p = b.dropWhile p := by
  intro a
  induction a with
  | nil => intro b _; rfl
  | cons c t ih =>
    intro b ha
    have hc : p c = true := ha c (by simp)
    rw [List.cons_append, List.dropWhile_cons_of_pos hc]
    exact ih b (fun x hx => ha x (by simp [hx]))

theorem dropWhile_eq_self_append (p : Char → Bool) (l rest : List Char)
    (h : l.dropWhile p = l) (hne : l ≠ []) :
    (l ++ rest).dropWhile p = l ++ rest := by
  cases l with
  | nil => exact absurd rfl hne
  | cons c t =>
    have hc := head_not_of_dropWhile_eq p c t h
    rw [List.cons_append, List.dropWhile_cons_of_neg (by simp [hc])]

theorem noPad_joinNl : ∀ (L : List (List Char)), L ≠ [] → (∀ l ∈ L, NoPad l) →
    NoPad (joinNl L) := by
  intro L
  induction L with
  | nil => intro h _; exact absurd rfl h
  | cons l ls ih =>
    intro _ hL
    have hl : NoPad l := hL l (by simp)
    cases ls with
    | nil => exact hl
    | cons l2 ls2 =>
      have hJ : NoPad (joinNl (l2 :: ls2)) := by
        refine ih (by simp) ?_
        intro x hx
        exact hL x (by simp [hx])
      show NoPad (l ++ '\n' :: joinNl (l2 :: ls2))
      obtain ⟨hJne, hJdrop, hJrev⟩ := hJ
      obtain ⟨hlne, hldrop, hlrev⟩ := hl
      refine ⟨by simp [hlne], ?_, ?_⟩
      · exact dropWhile_eq_self_append pyIsSpace l ('\n' :: joinNl (l2 :: ls2)) hldrop hlne
      · have hrev : (l ++ '\n' :: joinNl (l2 :: ls2)).reverse
            = (joinNl (l2 :: ls2)).reverse ++ ('\n' :: l.reverse) := by
          simp
        rw [hrev]
        have hJrevne : (joinNl (l2 :: ls2)).reverse ≠ [] := by
          simpa using hJne
        exact dropWhile_eq_self_append pyIsSpace _ _ hJrev hJrevne

theorem pyStrip_padded (u ws : List Char) (hu : NoPad u)
    (hws : ∀ c ∈ ws, pyIsSpace c = true) : pyStrip (u ++ ws) = u := by
  obtain ⟨hne, hdrop, hrev⟩ := hu
  unfold pyStrip
  rw [dropWhile_eq_self_append pyIsSpace u ws hdrop hne]
  rw [List.reverse_append]
  rw [dropWhile_append_all pyIsSpace ws.reverse u.reverse
      (fun x hx => hws x (List.mem_reverse.mp hx))]
  rw [hrev, List.reverse_reverse]

theorem pyStrip_all_space (ws : List Char) (hws : ∀ c ∈ ws, pyIsSpace c = true) :
    pyStrip ws = [] := by
  unfold pyStrip
  have h1 : ws.dropWhile pyIsSpace = [] := by
    have := dropWhile_append_all pyIsSpace ws [] hws
    simpa using this
  rw [h1]
  rfl

theorem pySplitNl_ne_nil : ∀ l : List Char, pySplitNl l ≠ [] := by
  intro l
  cases l with
  | nil => simp [pySplitNl]
  | cons c rest =>
    unfold pySplitNl
    cases h : pySplitNl rest with
    | nil => simp
    | cons a as => by_cases hc : c = '\n' <;> simp [hc]

theorem pySplitNl_no_nl : ∀ l : List Char, '\n' ∉ l → pySplitNl l = [l] := by
  intro l
  induction l with
  | nil => intro _; rfl
  | cons c rest ih =>
    intro h
    have hc : c ≠ '\n' := fun he => h (by simp [he])
    have hr : '\n' ∉ rest := fun he => h (by simp [he])
    unfold pySplitNl
    rw [ih hr]
    simp [hc]

theorem pySplitNl_cons (c : Char) (rest : List Char) :
    pySplitNl (c :: rest)
      = match pySplitNl rest with
        | [] => [[]]
        | l :: ls => if c = '\n' then [] :: l :: ls else (c :: l) :: ls := rfl

theorem pySplitNl_append_nl : ∀ (l t : List Char), '\n' ∉ l →
    pySplitNl (l ++ '\n' :: t) = l :: pySplitNl t := by
  intro l
  induction l with
  | nil =>
    intro t _
    show pySplitNl ('\n' :: t) = [] :: pySplitNl t
    rw [pySplitNl_cons]
    cases h : pySplitNl t with
    | nil => exact absurd h (pySplitNl_ne_nil t)
    | cons a as => simp
  | cons c u ih =>
    intro t h
    have hc : c ≠ '\n' := fun he => h (by simp [he])
    have hu : '\n' ∉ u := fun he => h (by simp [he])
    have h2 := ih t hu
    show pySplitNl (c :: (u ++ '\n' :: t)) = (c :: u) :: pySplitNl t
    rw [pySplitNl_cons, h2]
    simp [hc]

theorem pySplitNl_joinNl : ∀ (L : List (List Char)), L ≠ [] →
    (∀ l ∈ L, '\n' ∉ l) → pySplitNl (joinNl L) = L := by
  intro L
  induction L with
  | nil => intro h _; exact absurd rfl h
  | cons l ls ih =>
    intro _ hL
    have hl : '\n' ∉ l := hL l (by simp)
    cases ls with
    | nil => exact pySplitNl_no_nl l hl
    | cons l2 ls2 =>
      show pySplitNl (l ++ '\n' :: joinNl (l2 :: ls2)) = l :: l2 :: ls2
      rw [pySplitNl_append_nl l (joinNl (l2 :: ls2)) hl]
      rw [ih (by simp) (fun x hx => hL x (by simp [hx]))]

theorem pyStrip_noPad (l : List Char) (h : NoPad l) : pyStrip l = l := by
  obtain ⟨-, h1, h2⟩ := h
  unfold pyStrip
  rw [h1, h2, List.reverse_reverse]

theorem goodCodec_noPad {α : Type} (dumps : α → List Char) (loads : List Char → Option α)
    (hc : GoodCodec dumps loads) (r : α) : NoPad (dumps r) :=
  ⟨(hc r).2.1, (hc r).2.2.2.1, (hc r).2.2.2.2⟩

theorem jsonl_eq_nil {α : Type} (dumps : α → List Char) (qs : List α)
    (h : jsonlContent dumps qs = []) : qs = [] := by
  cases qs with
  | nil => rfl
  | cons q qs' =>
    exfalso
    have h2 : dumps q ++ '\n' :: jsonlContent dumps qs' = [] := h
    simp at h2

theorem jsonl_append {α : Type} (dumps : α → List Char) :
    ∀ a b : List α,
      jsonlContent dumps (a ++ b) = jsonlContent dumps a ++ jsonlContent dumps b := by
  intro a b
  induction a with
  | nil => simp [jsonlContent]
  | cons q a' ih => simp [jsonlContent, ih]

theorem jsonl_eq_join {α : Type} (dumps : α → List Char) :
    ∀ qs : List α, qs ≠ [] →
      jsonlContent dumps qs = joinNl (qs.map dumps) ++ ['\n'] := by
  intro qs
  induction qs with
  | nil => intro h; exact absurd rfl h
  | cons q qs' ih =>
    intro _
    cases qs' with
    | nil => rfl
    | cons q2 qs2 =>
      have h2 : jsonlContent dumps (q2 :: qs2) = joinNl ((q2 :: qs2).map dumps) ++ ['\n'] :=
        ih (by simp)
      show dumps q ++ '\n' :: jsonlContent dumps (q2 :: qs2) = _
      rw [h2]
      show _ = joinNl (dumps q :: dumps q2 :: qs2.map dumps) ++ ['\n']
      rw [show joinNl (dumps q :: dumps q2 :: qs2.map dumps)
            = dumps q ++ '\n' :: joinNl (dumps q2 :: qs2.map dumps) from rfl]
      simp

theorem jsonl_shape {α : Type} (dumps : α → List Char) : ∀ qs : List α,
    jsonlContent dumps qs = [] ∨ ∃ u, jsonlContent dumps qs = u ++ ['\n'] := by
  intro qs
  induction qs with
  | nil => left; rfl
  | cons q qs' ih =>
    right
    rcases ih with h | ⟨u, h⟩
    · exact ⟨dumps q, by simp [jsonlContent, h]⟩
    · exact ⟨dumps q ++ '\n' :: u, by simp [jsonlContent, h]⟩

theorem loadLines_map {α : Type} (dumps : α → List Char) (loads : List Char → Option α)
    (hc : GoodCodec dumps loads) :
    ∀ qs : List α, loadLines loads (qs.map dumps) = some qs := by
  intro qs
  induction qs with
  | nil => rfl
  | cons q qs' ih =>
    show loadLines loads (dumps q :: qs'.map dumps) = some (q :: qs')
    unfold loadLines
    rw [(hc q).1, ih]
    rfl

theorem get_annotations_canonical {α : Type} (dumps : α → List Char)
    (loads : List Char → Option α) (hc : GoodCodec dumps loads)
    (qs : List α) (pad : List Char) (hpad : ∀ c ∈ pad, pyIsSpace c = true) (sha : Nat) :
    get_annotations loads (some ⟨jsonlContent dumps qs ++ pad, sha⟩) = qs := by
  cases qs with
  | nil =>
    have h0 : jsonlContent dumps ([] : List α) ++ pad = pad := by simp [jsonlContent]
    rw [h0]
    unfold get_annotations
    simp only
    rw [pyStrip_all_space pad hpad]
    rfl
  | cons q qs' =>
    have hL : (q :: qs').map dumps ≠ [] := by simp
    have hLnn : ∀ l ∈ (q :: qs').map dumps, '\n' ∉ l := by
      intro l hl
      obtain ⟨r, -, hr⟩ := List.mem_map.mp hl
      rw [← hr]
      exact (hc r).2.2.1
    have hLnp : ∀ l ∈ (q :: qs').map dumps, NoPad l := by
      intro l hl
      obtain ⟨r, -, hr⟩ := List.mem_map.mp hl
      rw [← hr]
      exact goodCodec_noPad dumps loads hc r
    have hjoin : jsonlContent dumps (q :: qs') ++ pad
        = joinNl ((q :: qs').map dumps) ++ ('\n' :: pad) := by
      rw [jsonl_eq_join dumps (q :: qs') (by simp)]
      simp
    rw [hjoin]
    unfold get_annotations
    simp only
    rw [pyStrip_padded (joinNl ((q :: qs').map dumps)) ('\n' :: pad)
        (noPad_joinNl _ hL hLnp)
        (by intro c hcm
            rcases List.mem_cons.mp hcm with h | h
            · rw [h]; rfl
            · exact hpad c h)]
    rw [pySplitNl_joinNl _ hL hLnn]
    have hfilt : ∀ l ∈ (q :: qs').map dumps, (!(pyStrip l).isEmpty) = true := by
      intro l hl
      have hnp := hLnp l hl
      rw [pyStrip_noPad l hnp]
      cases hl2 : l with
      | nil => exact absurd hl2 hnp.1
      | cons c t => rfl
    rw [List.filter_eq_self.mpr hfilt]
    rw [loadLines_map dumps loads hc]
    rfl

theorem appendContent_canonical {α : Type} (dumps : α → List Char)
    (rs newAnnotations : List α) :
    appendContent dumps (jsonlContent dumps rs) newAnnotations
      = jsonlContent dumps rs ++ (joinNl (newAnnotations.map dumps) ++ ['\n']) := by
  unfold appendContent
  have hcond : (!(jsonlContent dumps rs).isEmpty
      && !pyEndsWithNl (jsonlContent dumps rs)) = false := by
    rcases jsonl_shape dumps rs with h | ⟨u, h⟩
    · rw [h]; rfl
    · rw [h]
      have h2 : pyEndsWithNl (u ++ ['\n']) = true := by
        unfold pyEndsWithNl
        rw [List.getLast?_concat]
        rfl
      rw [h2]
      simp
  simp [hcond, List.append_assoc]

/-- Claim C10: with no concurrent writer, a successful append of encoded
records to the remote jsonl file preserves the previously stored records
and a subsequent read returns exactly the previous records followed by the
appended ones in order, given the round-trip facts of the external json
codec and a file whose content is the canonical jsonl of the previously
stored records. -/
theorem c10_append_get_roundtrip {α : Type} (dumps : α → List Char)
    (loads : List Char → Option α) (hc : GoodCodec dumps loads)
    (rs newAnnotations : List α) (s : Option GhFile)
    (hs : contentOf s = jsonlContent dumps rs) :
    (append_to_jsonl_file dumps s s newAnnotations).ok = true
    ∧ get_annotations loads s = rs
    ∧ get_annotations loads (append_to_jsonl_file dumps s s newAnnotations).state
        = rs ++ newAnnotations := by
  have hok : (append_to_jsonl_file dumps s s newAnnotations).ok = true := by
    unfold append_to_jsonl_file _create_or_update_file ghPut
    simp
  have hstate : ∃ sha2, (append_to_jsonl_file dumps s s newAnnotations).state
      = some ⟨appendContent dumps (contentOf s) newAnnotations, sha2⟩ := by
    unfold append_to_jsonl_file _create_or_update_file ghPut
    cases s with
    | none => exact ⟨0, by simp⟩
    | some f => exact ⟨f.sha + 1, by simp⟩
  obtain ⟨sha2, hstate⟩ := hstate
  have hbefore : get_annotations loads s = rs := by
    cases s with
    | none =>
      have h0 : rs = [] := jsonl_eq_nil dumps rs (by simpa using hs.symm)
      rw [h0]
      rfl
    | some f =>
      have hf : f.content = jsonlContent dumps rs := hs
      have h2 := get_annotations_canonical dumps loads hc rs [] (by simp) f.sha
      rw [List.append_nil] at h2
      have hfe : f = (⟨jsonlContent dumps rs, f.sha⟩ : GhFile) := by
        cases f
        simpa using hf
      rw [hfe]
      exact h2
  refine ⟨hok, hbefore, ?_⟩
  rw [hstate, hs, appendContent_canonical dumps rs newAnnotations]
  cases newAnnotations with
  | nil =>
    have h1 : jsonlContent dumps rs ++ (joinNl (([] : List α).map dumps) ++ ['\n'])
        = jsonlContent dumps rs ++ ['\n'] := by
      simp [joinNl]
    rw [h1]
    have h2 := get_annotations_canonical dumps loads hc rs ['\n']
        (by intro c hcm; simp at hcm; rw [hcm]; rfl) sha2
    rw [h2]
    simp
  | cons n ns =>
    have h1 : joinNl ((n :: ns).map dumps) ++ ['\n'] = jsonlContent dumps (n :: ns) :=
      (jsonl_eq_join dumps (n :: ns) (by simp)).symm
    rw [h1, ← jsonl_append dumps rs (n :: ns)]
    have h2 := get_annotations_canonical dumps loads hc (rs ++ n :: ns) [] (by simp) sha2
    rw [List.append_nil] at h2
    exact h2

/-- Constant encoder used only to instantiate the codec facts concretely. -/
def unitDumps (_ : Unit) : List Char := ['u']

/-- Decoder matching unitDumps. -/
def unitLoads (l : List Char) : Option Unit :=
  if l = ['u'] then some () else none

/-- Claim C10 (witness for the round-trip theorem at a concrete input). -/
theorem c10_witness :
    get_annotations unitLoads
        (append_to_jsonl_file unitDumps (some ⟨['u', '\n'], 0⟩) (some ⟨['u', '\n'], 0⟩)
          [(), ()]).state
      = [(), (), ()] := by
  have h := c10_append_get_roundtrip unitDumps unitLoads
      (by intro r; cases r; exact ⟨rfl, by decide, by decide, by decide, by decide⟩)
      [()] [(), ()] (some ⟨['u', '\n'], 0⟩) rfl
  simpa using h.2.2
